import Mathlib

/-!
# Verification of the MLQFS scheduler simulator (`mlqfs.c`)

A shallow embedding of the multi-level feedback queue scheduler simulator
from `src/mlqfs/mlqfs.c` / `src/mlqfs/mlqfs.h`.  C `unsigned int` counters
are modelled as `Nat` (all arithmetic on them in the program stays far from
the 2^32 wrap, except where noted), `int` pids as `Int`, and the `fprintf`
event trace as a list of structured events carrying exactly the printed
numbers (priority levels appear 1-based, as printed).
-/

namespace Mlqfs

/-! ## The priority-queue container

Modelled from the spec: the `prioque` container (`prioque.h` / `prioque.c`)
is not among the repository sources under `src/`; §6.1 of the spec gives its
contract: a stable min-priority queue keyed by integer priority, with
`push` (stable FIFO among equal keys), nondestructive `peek_head`,
`pop_head`, `update_head` (replace the head's payload in place, keeping its
key and position), `head_priority` and `size`.  We realise the contract as a
list of (key, payload) pairs kept sorted by key, insertion placing the new
element after all elements of equal key. -/

abbrev Queue (α : Type) : Type := List (Nat × α)

/-- Modelled from the spec: `size()` of the priority-queue contract. -/
def queue_length {α : Type} (q : Queue α) : Nat := q.length

/-- Modelled from the spec: `push(record, priority)` — insert with integer
priority key, stable FIFO among equal keys (the new record goes after every
record whose key is less than or equal to the new key). -/
def add_to_queue {α : Type} : Queue α → α → Nat → Queue α
  | [], x, p => [(p, x)]
  | (q, y) :: rest, x, p =>
      if p < q then (p, x) :: (q, y) :: rest
      else (q, y) :: add_to_queue rest x p

/-- Modelled from the spec: `peek_head()` — read a copy of the min-priority
element.  (The C callers only invoke it on nonempty queues.) -/
def peek_at_current {α : Type} [Inhabited α] (q : Queue α) : α :=
  (q.headD (0, default)).2

/-- Modelled from the spec: `head_priority()`. -/
def current_priority {α : Type} : Queue α → Nat
  | [] => 0
  | (p, _) :: _ => p

/-- Modelled from the spec: `pop_head()` — remove and return the
min-priority element. -/
def remove_from_front {α : Type} [Inhabited α] : Queue α → α × Queue α
  | [] => (default, [])
  | (_, x) :: rest => (x, rest)

/-- Modelled from the spec: `update_head(record)` — replace the head's
payload in place without reordering (the key is unchanged). -/
def update_current {α : Type} : Queue α → α → Queue α
  | [], _ => []
  | (p, _) :: rest, x => (p, x) :: rest

/-! ## Data model (`mlqfs.h`) -/

/-- One phase of a process's life (`struct Behaviour`): `cpu_time` ticks of
CPU per burst, `io_time` ticks blocked per I/O, `repeats` CPU/I-O cycles.
The header declares the three fields `unsigned int`. -/
structure Behaviour where
  cpu_time : Nat
  io_time : Nat
  repeats : Nat
deriving Repr, DecidableEq

instance : Inhabited Behaviour := ⟨⟨0, 0, 0⟩⟩

/-- A simulated job (`struct Process`).  `pid` is a C `int`; the remaining
counters are `unsigned int`.  The `behaviours` member is a prioque into
which `load_process_descriptions` pushes every behaviour with constant key
1, i.e. plain FIFO order; we model it as a list consumed front-to-back. -/
structure Process where
  pid : Int
  priority_cache : Nat
  behaviours : List Behaviour
  arrival_time : Nat
  units : Nat
  quanta : Nat
  progress : Nat
  promotion : Nat
  demotion : Nat
  total_cpu_usage : Nat
deriving Repr, DecidableEq

/-- The zero-initialised process: both the file-scope `null` process
(`{ .pid = 0, .total_cpu_usage = 0 }`, remaining members zero) and the
result of `init_process` have exactly these contents. -/
def null_process : Process :=
  { pid := 0, priority_cache := 0, behaviours := [], arrival_time := 0,
    units := 0, quanta := 0, progress := 0, promotion := 0, demotion := 0,
    total_cpu_usage := 0 }

instance : Inhabited Process := ⟨null_process⟩

/-- `init_process`: set every member to its default value and give the
process an empty behaviour queue. -/
def init_process : Process := null_process

/-! ## Constants (`mlqfs.c` lines 11-16) -/

def MAX_PRIORITY : Nat := 0
def MIN_PRIORITY : Nat := 2

def QUANTUM_THRESHOLD : List Nat := [10, 30, 100]

/-- `DEMOTION_THRESHOLD[3] = { 1, 2, 'X' }`: the character literal `'X'` is
the C integer 88. -/
def DEMOTION_THRESHOLD : List Nat := [1, 2, 88]

/-- `PROMOTION_THRESHOLD[3] = { 'X', 2, 1 }` with `'X' = 88`. -/
def PROMOTION_THRESHOLD : List Nat := [88, 2, 1]

/-! ## Events

One constructor per `fprintf` template, carrying exactly the printed
numbers: in `run` and `queued` the `level` argument is the 1-based value
`priority + 1` that the program prints. -/

inductive Event where
  | create (pid : Int) (time : Nat)
  | run (pid : Int) (level : Nat) (time : Nat) (ticks : Nat)
  | queued (pid : Int) (level : Nat) (time : Nat)
  | blocked (pid : Int) (time : Nat)
  | finished (pid : Int) (time : Nat)
  | shutdown (time : Nat)
deriving Repr, DecidableEq

/-- The `at time <t>` field printed on each event line. -/
def Event.time : Event → Nat
  | .create _ t => t
  | .run _ _ t _ => t
  | .queued _ _ t => t
  | .blocked _ t => t
  | .finished _ t => t
  | .shutdown t => t

/-! ## Scheduler state

The file-scope mutable globals of `mlqfs.c`: the four queues, the null
process's usage counter, the clock, and the `running` process.  `running`
is a zero-initialised C static, i.e. it starts out equal to the null
process. -/

structure State where
  ready : Queue Process
  io_q : Queue Process
  arrival : Queue Process
  logs : Queue Process
  null_usage : Nat
  clock : Nat
  running : Process
deriving Repr, DecidableEq

/-- `scheduler_is_active`: there is a process in `ready`, `io` or
`arrival`. -/
def scheduler_is_active (s : State) : Bool :=
  queue_length s.ready > 0 || queue_length s.io_q > 0 || queue_length s.arrival > 0

/-! ## Workload loading (`load_process_descriptions`)

The input stream is modelled as the list of integer quintuples that the
two `fscanf` calls of each loop iteration deliver: `%u` for `arrival`
(a `Nat`), `%d` for the other four (an `Int` each).  The three scanned
behaviour values are stored into the header's `unsigned int` fields, which
truncates them modulo 2^32. -/

structure InputLine where
  arrival : Nat
  pid : Int
  cpu_time : Int
  io_time : Int
  repeats : Int
deriving Repr, DecidableEq

/-- Storage of a scanned C `int` into an `unsigned int` object: reduce
modulo 2^32. -/
def toU32 (v : Int) : Nat := (v % (4294967296 : Int)).toNat

/-- The loop body and final push of `load_process_descriptions`, with the
in-progress process, the `is_first` flag and the arrival queue built so far
as explicit state. -/
def load_aux : List InputLine → Bool → Process → Queue Process → Queue Process
  | [], _, process, acc => add_to_queue acc process process.arrival_time
  | line :: rest, is_first, process, acc =>
      let behaviour : Behaviour :=
        ⟨toU32 line.cpu_time, toU32 line.io_time, toU32 line.repeats⟩
      let pa :=
        if is_first = false ∧ process.pid ≠ line.pid then
          (init_process, add_to_queue acc process process.arrival_time)
        else (process, acc)
      let process :=
        { pa.1 with
            pid := line.pid,
            arrival_time := line.arrival,
            behaviours := pa.1.behaviours ++ [behaviour] }
      load_aux rest false process pa.2

/-- `load_process_descriptions`: parse the quintuple stream into the
arrival queue, keyed by each pushed process's `arrival_time`. -/
def load_process_descriptions (input : List InputLine) : Queue Process :=
  load_aux input true init_process []

/-! ## Admission (`queue_new_processes`) -/

/-- First `while` of `queue_new_processes`: pop arrivals whose key
(`arrival_time`) is `≤ clock` and push them into `ready` at
`MAX_PRIORITY`, emitting a CREATE line each.  Returns the remaining
arrival queue, the grown ready queue, and the emitted events. -/
def drain_arrivals : Queue Process → Queue Process → Nat →
    Queue Process × Queue Process × List Event
  | [], ready, _ => ([], ready, [])
  | (k, p) :: rest, ready, clock =>
      if k ≤ clock then
        let r := drain_arrivals rest (add_to_queue ready p MAX_PRIORITY) clock
        (r.1, r.2.1, Event.create p.pid clock :: r.2.2)
      else ((k, p) :: rest, ready, [])

/-- Second `while` of `queue_new_processes`: pop I/O processes whose key
(wake time) is `≤ clock` and push them into `ready` at their
`priority_cache`, emitting a QUEUED line each. -/
def drain_io : Queue Process → Queue Process → Nat →
    Queue Process × Queue Process × List Event
  | [], ready, _ => ([], ready, [])
  | (k, p) :: rest, ready, clock =>
      if k ≤ clock then
        let r := drain_io rest (add_to_queue ready p p.priority_cache) clock
        (r.1, r.2.1, Event.queued p.pid (p.priority_cache + 1) clock :: r.2.2)
      else ((k, p) :: rest, ready, [])

/-- `queue_new_processes`: admit due arrivals and due I/O returners, then
log a QUEUED line for the incumbent head of `ready` if a newly admitted
process displaced it (the incumbent's `priority_cache` local copy holds its
level at the start of the call). -/
def queue_new_processes (s : State) : State × List Event :=
  let previous_active :=
    if queue_length s.ready > 0 then
      { peek_at_current s.ready with priority_cache := current_priority s.ready }
    else null_process
  let ra := drain_arrivals s.arrival s.ready s.clock
  let ri := drain_io s.io_q ra.2.1 s.clock
  let evs3 :=
    if queue_length ri.2.1 > 0 ∧ previous_active.pid ≠ null_process.pid ∧
        previous_active.pid ≠ (peek_at_current ri.2.1).pid then
      [Event.queued previous_active.pid (previous_active.priority_cache + 1) s.clock]
    else []
  ({ s with arrival := ra.1, io_q := ri.1, ready := ri.2.1 },
   ra.2.2 ++ ri.2.2 ++ evs3)

/-! ## Ready-queue transitions -/

/-- `send_process_to_io`: pop the head of `ready`; bump `promotion`, clear
`demotion`; on reaching the level's promotion threshold clear `promotion`
and (unless already at `MAX_PRIORITY`) move one level up; cache the
resulting level, bump `progress`, clear `units` and `quanta`; push into the
I/O queue keyed `clock + io_time` and emit the I/O line.  (The C code peeks
the current behaviour from the process's behaviour queue; on the one
degenerate record with an empty behaviour queue that `load` can produce,
the C read is of uninitialised stack memory — we model it as the
zero behaviour.) -/
def send_process_to_io (s : State) : State × Event :=
  let priority := current_priority s.ready
  let popped := remove_from_front s.ready
  let behaviour := popped.1.behaviours.headD default
  let process := { popped.1 with promotion := popped.1.promotion + 1, demotion := 0 }
  let pp :=
    if PROMOTION_THRESHOLD.getD priority 0 ≤ process.promotion then
      ({ process with promotion := 0 },
       if priority ≠ MAX_PRIORITY then priority - 1 else priority)
    else (process, priority)
  let process :=
    { pp.1 with
        priority_cache := pp.2, progress := pp.1.progress + 1,
        units := 0, quanta := 0 }
  ({ s with
      ready := popped.2,
      io_q := add_to_queue s.io_q process (s.clock + behaviour.io_time) },
   Event.blocked process.pid s.clock)

/-- `halt_process`: pop the head of `ready`; bump `demotion`, clear
`promotion` and `quanta`; on reaching the level's demotion threshold clear
`demotion` and (unless already at `MIN_PRIORITY`) move one level down; push
back into `ready` at the resulting level and emit the QUEUED line. -/
def halt_process (s : State) : State × Event :=
  let priority := current_priority s.ready
  let popped := remove_from_front s.ready
  let process :=
    { popped.1 with demotion := popped.1.demotion + 1, promotion := 0, quanta := 0 }
  let pp :=
    if DEMOTION_THRESHOLD.getD priority 0 ≤ process.demotion then
      ({ process with demotion := 0 },
       if priority ≠ MIN_PRIORITY then priority + 1 else priority)
    else (process, priority)
  ({ s with ready := add_to_queue popped.2 pp.1 pp.2 },
   Event.queued pp.1.pid (pp.2 + 1) s.clock)

/-- `terminate_process`: pop the head of `ready`, release its behaviour
queue, move the record into the report queue keyed by `total_cpu_usage`,
and emit the FINISHED line. -/
def terminate_process (s : State) : State × Event :=
  let popped := remove_from_front s.ready
  ({ s with
      ready := popped.2,
      logs := add_to_queue s.logs popped.1 popped.1.total_cpu_usage },
   Event.finished popped.1.pid s.clock)

/-! ## Scheduling normalization (`schedule_processes`) -/

/-- The work done by one pass of `schedule_processes`' `while` body
strictly decreases this measure in every branch that loops (terminate and
send-to-I/O remove the head of `ready`; advance-behaviour removes one
behaviour), so supplying `ready_measure + 1` fuel makes the fuelled loop
below equal to the C loop. -/
def ready_measure (q : Queue Process) : Nat :=
  (q.map (fun pr => 1 + pr.2.behaviours.length)).sum

/-- The `while` loop of `schedule_processes`, with explicit fuel (never
exhausted for the fuel `schedule_processes` supplies). -/
def schedule_aux : Nat → State → State × List Event
  | 0, s => (s, [])
  | fuel + 1, s =>
      match s.ready with
      | [] => ({ s with running := null_process }, [])
      | (priority, process) :: _ =>
          let behaviour := process.behaviours.headD default
          if process.behaviours.length = 1 ∧ process.progress = behaviour.repeats ∧
              behaviour.cpu_time ≤ process.units then
            let r := terminate_process s
            let rr := schedule_aux fuel r.1
            (rr.1, r.2 :: rr.2)
          else if 1 < process.behaviours.length ∧ behaviour.repeats ≤ process.progress then
            let process' := { process with behaviours := process.behaviours.tail, progress := 0 }
            schedule_aux fuel { s with ready := update_current s.ready process' }
          else if behaviour.cpu_time ≤ process.units then
            let r := send_process_to_io s
            let rr := schedule_aux fuel r.1
            (rr.1, r.2 :: rr.2)
          else
            let evs :=
              if process.quanta = 0 ∨ process.pid ≠ s.running.pid then
                [Event.run process.pid (priority + 1) s.clock
                  (behaviour.cpu_time - process.units)]
              else []
            ({ s with running := process }, evs)

/-- `schedule_processes`: normalize the head of `ready` until it is
eligible for a CPU tick (or the queue empties, in which case `running`
becomes the null process). -/
def schedule_processes (s : State) : State × List Event :=
  schedule_aux (ready_measure s.ready + 1) s

/-! ## Run and quantum check -/

/-- `run_top_process`: if `ready` is empty the null process accumulates the
tick; otherwise the head's `units` and `total_cpu_usage` are incremented
via peek / modify / write-back (`update_current`). -/
def run_top_process (s : State) : State :=
  if queue_length s.ready = 0 then
    { s with null_usage := s.null_usage + 1 }
  else
    let process := peek_at_current s.ready
    let process :=
      { process with
          units := process.units + 1,
          total_cpu_usage := process.total_cpu_usage + 1 }
    { s with ready := update_current s.ready process }

/-- `check_top_process_quanta`: increment the head-of-ready's `quanta` (via
update-head), then halt it if the quantum for its level is consumed. -/
def check_top_process_quanta (s : State) : State × List Event :=
  if queue_length s.ready = 0 then (s, [])
  else
    let process := peek_at_current s.ready
    let process := { process with quanta := process.quanta + 1 }
    let ready' := update_current s.ready process
    let priority := current_priority ready'
    if QUANTUM_THRESHOLD.getD priority 0 ≤ process.quanta then
      let r := halt_process { s with ready := ready' }
      (r.1, [r.2])
    else ({ s with ready := ready' }, [])

/-! ## The tick loop and the whole program (`main`) -/

/-- One iteration of `main`'s `while` loop: quantum check, admission,
scheduling normalization, run, clock increment. -/
def tick (s : State) : State × List Event :=
  let r1 := check_top_process_quanta s
  let r2 := queue_new_processes r1.1
  let r3 := schedule_processes r2.1
  let s4 := run_top_process r3.1
  ({ s4 with clock := s4.clock + 1 }, r1.2 ++ r2.2 ++ r3.2)

/-- `n` iterations of the tick loop. -/
def tickN : Nat → State → State
  | 0, s => s
  | n + 1, s => tickN n (tick s).1

/-- The scheduler state right after `init_scheduler()` and `mlqfs_clock = 0`
in `main`: empty ready/io/report queues, the loaded arrival queue, null
usage 0, and the zero-initialised `running` static. -/
def init_state (arrival : Queue Process) : State :=
  { ready := [], io_q := [], arrival := arrival, logs := [],
    null_usage := 0, clock := 0, running := null_process }

/-- `main`'s `while (scheduler_is_active())` loop, with explicit fuel;
`none` when the fuel is exhausted with the scheduler still active. -/
def run_loop : Nat → State → Option (State × List Event)
  | 0, s => if scheduler_is_active s then none else some (s, [])
  | fuel + 1, s =>
      if scheduler_is_active s then
        let r := tick s
        match run_loop fuel r.1 with
        | none => none
        | some rs => some (rs.1, r.2 ++ rs.2)
      else some (s, [])

/-- `shutdown_scheduler`: free the three active queues, push the null
process into the report queue (keyed by its usage) if it ever ran, and
emit the shutdown line at the current clock. -/
def shutdown_scheduler (s : State) : State × Event :=
  let logs' :=
    if 0 < s.null_usage then
      add_to_queue s.logs { null_process with total_cpu_usage := s.null_usage }
        s.null_usage
    else s.logs
  ({ s with ready := [], io_q := [], arrival := [], logs := logs' },
   Event.shutdown s.clock)

/-- One line of `print_report` output: the pid printed (`0` stands for the
`<<null>>` row) and the `total_cpu_usage` value. -/
structure ReportRow where
  pid : Int
  usage : Nat
deriving Repr, DecidableEq

/-- `print_report`: drain the report queue front-to-back into rows. -/
def print_report (logs : Queue Process) : List ReportRow :=
  logs.map (fun pr => ⟨pr.2.pid, pr.2.total_cpu_usage⟩)

/-- The whole program: load the workload, run the tick loop to completion
(`none` if `fuel` ticks do not suffice), roll the clock's final
over-increment back, shut down, and report.  The last component is `main`'s
return value, i.e. the process exit code. -/
def mlqfs_main (fuel : Nat) (input : List InputLine) :
    Option (List Event × List ReportRow × Nat) :=
  match run_loop fuel (init_state (load_process_descriptions input)) with
  | none => none
  | some r =>
      let sd := shutdown_scheduler { r.1 with clock := r.1.clock - 1 }
      some (r.2 ++ [sd.2], print_report sd.1.logs, 0)

/-! ## The quantum invariant -/

/-- Every entry of a ready queue sits at a legal level (0..2). -/
def levels_ok (q : Queue Process) : Prop :=
  ∀ pr ∈ q, pr.1 ≤ MIN_PRIORITY

/-- Every entry of a ready queue has `quanta` within the quantum of its
level. -/
def quanta_ok (q : Queue Process) : Prop :=
  ∀ pr ∈ q, pr.2.quanta ≤ QUANTUM_THRESHOLD.getD pr.1 0

/-- Every entry of an I/O queue carries a legal cached priority and a
cleared quantum counter. -/
def io_ok (q : Queue Process) : Prop :=
  ∀ pr ∈ q, pr.2.priority_cache ≤ MIN_PRIORITY ∧ pr.2.quanta = 0

/-- Every entry of an arrival queue has a cleared quantum counter. -/
def arr_ok (q : Queue Process) : Prop :=
  ∀ pr ∈ q, pr.2.quanta = 0

/-- The tick-loop invariant: ready entries sit at levels 0..2 with
`quanta` within their level's quantum; I/O entries carry a legal cached
priority and a cleared quantum counter; arrival entries have a cleared
quantum counter. -/
def SchedInv (s : State) : Prop :=
  levels_ok s.ready ∧ quanta_ok s.ready ∧ io_ok s.io_q ∧ arr_ok s.arrival

instance (s : State) : Decidable (SchedInv s) := by
  unfold SchedInv levels_ok quanta_ok io_ok arr_ok; infer_instance

/-! ## Concrete workloads and states used by the claims -/

/-- Scenario S1 of the spec: the single line `0 1 5 3 1`. -/
def s1_input : List InputLine := [⟨0, 1, 5, 3, 1⟩]

/-- The event trace the program actually emits on S1. -/
def s1_trace : List Event :=
  [.create 1 0, .run 1 1 0 5, .blocked 1 5, .queued 1 1 8, .run 1 1 8 5,
   .finished 1 13, .shutdown 13]

/-- The report rows the program actually emits on S1. -/
def s1_report : List ReportRow := [⟨0, 4⟩, ⟨1, 10⟩]

/-- Two consecutive input lines for the same pid 1 with different arrival
times (5 on the first line, 99 on the second). -/
def c2_input : List InputLine := [⟨5, 1, 2, 2, 1⟩, ⟨99, 1, 3, 3, 1⟩]

/-- A workload whose single process has the nonpositive pid `-5`. -/
def c5_input : List InputLine := [⟨0, -5, 2, 1, 1⟩]

/-- The trace the program emits for the pid `-5` workload. -/
def c5_trace : List Event :=
  [.create (-5) 0, .run (-5) 1 0 2, .blocked (-5) 2, .queued (-5) 1 3,
   .run (-5) 1 3 2, .finished (-5) 5, .shutdown 5]

/-- The report rows the program emits for the pid `-5` workload. -/
def c5_report : List ReportRow := [⟨0, 2⟩, ⟨-5, 4⟩]

/-- A process at the bottom level one quantum expiry away from the `'X'`
demotion threshold: 87 consecutive expiries already recorded. -/
def c4_proc : Process :=
  { null_process with
      pid := 3, behaviours := [⟨1000, 1, 1⟩], units := 30, demotion := 87 }

/-- A state whose ready queue holds `c4_proc` at level 2 (reached after 87
consecutive 100-tick quanta at the bottom level). -/
def c4_state : State :=
  { ready := [(2, c4_proc)], io_q := [], arrival := [], logs := [],
    null_usage := 0, clock := 42, running := null_process }

/-- An eligible head process mid-quantum: 3 ticks of its slice consumed,
1 of its 5-tick burst done. -/
def c3_proc : Process :=
  { null_process with
      pid := 1, behaviours := [⟨5, 3, 1⟩], units := 1, quanta := 3 }

/-- A state where `c3_proc` heads the ready queue while the last process
granted CPU (`running`) was pid 2 — e.g. pid 2 just departed for I/O. -/
def c3_state : State :=
  { ready := [(0, c3_proc)], io_q := [], arrival := [], logs := [],
    null_usage := 0, clock := 7, running := { null_process with pid := 2 } }

/-- The head of the ready queue after three ticks of the S1 workload:
process 1 three ticks into its first burst, two ticks into its quantum
slice. -/
def c6_proc : Process :=
  { pid := 1, priority_cache := 0, behaviours := [⟨5, 3, 1⟩],
    arrival_time := 0, units := 3, quanta := 2, progress := 0,
    promotion := 0, demotion := 0, total_cpu_usage := 3 }

/-! ## C1 — scenario S1 -/

/-- C1 (counterexample): on the workload `0 1 5 3 1` the program does NOT
emit `FINISHED: Process 1 finished at time 9.`, and the report line for
process 1 does not show 5 time units: after the post-I/O return the
process must complete a second full 5-tick CPU burst (its `units` counter
was reset on dispatch to I/O), so it finishes at time 13 with 10 total
units. -/
theorem s1_run_no_finish_at_9 :
    mlqfs_main 20 s1_input = some (s1_trace, s1_report, 0) ∧
      Event.finished 1 9 ∉ s1_trace ∧ (⟨1, 5⟩ : ReportRow) ∉ s1_report := by
  decide

/-- C1 (amended): on the workload `0 1 5 3 1` the emitted trace begins with
the CREATE at time 0 and the RUN at time 0 wanting 5 ticks, contains
`I/O: Process 1 blocked for I/O at time 5.`, then contains
`FINISHED: Process 1 finished at time 13.` (the process runs a second full
CPU burst after the post-I/O return), and the final report line for
process 1 shows 10 time units of total CPU usage. -/
theorem s1_run_trace :
    mlqfs_main 20 s1_input = some (s1_trace, s1_report, 0) ∧
      s1_trace.take 2 = [Event.create 1 0, Event.run 1 1 0 5] ∧
      Event.blocked 1 5 ∈ s1_trace ∧ Event.finished 1 13 ∈ s1_trace ∧
      (⟨1, 10⟩ : ReportRow) ∈ s1_report := by
  decide

/-! ## C2 — which line's arrival time wins -/

/-- C2 (counterexample): two consecutive lines for pid 1 with arrival
times 5 and 99 produce a single arrival-queue record keyed 99 and carrying
`arrival_time = 99` — the FIRST line's arrival time (5) is the one that is
overwritten and ignored, not the later one. -/
theorem load_uses_last_arrival_cex :
    (load_process_descriptions c2_input).map Prod.fst = [99] ∧
      (load_process_descriptions c2_input).map (fun pr => pr.2.arrival_time) = [99] ∧
      ([99] : List Nat) ≠ [5] := by
  decide

/-- Helper for C2: pushing further same-pid lines into an in-progress
process never flushes it; the record finally pushed carries the arrival
time of the last line (or the in-progress value if no line remains). -/
theorem load_aux_same_pid (lines : List InputLine) :
    ∀ (proc : Process) (acc : Queue Process), (∀ l ∈ lines, l.pid = proc.pid) →
      ∃ P : Process, load_aux lines false proc acc =
          add_to_queue acc P P.arrival_time ∧ P.pid = proc.pid ∧
          P.arrival_time = (lines.map InputLine.arrival).getLastD proc.arrival_time := by
  induction lines with
  | nil => intro proc acc _; exact ⟨proc, rfl, rfl, rfl⟩
  | cons line rest ih =>
      intro proc acc hsame
      have hpid : line.pid = proc.pid := hsame line (List.mem_cons_self _ _)
      obtain ⟨P, hP, hPpid, hPa⟩ :=
        ih { proc with
              pid := line.pid, arrival_time := line.arrival,
              behaviours := proc.behaviours ++
                [⟨toU32 line.cpu_time, toU32 line.io_time, toU32 line.repeats⟩] }
          acc (fun l hl => by
            rw [hpid]; exact hsame l (List.mem_cons_of_mem _ hl))
      refine ⟨P, ?_, by simpa [hpid] using hPpid, ?_⟩
      · simp only [load_aux]
        simp only [hpid] at hP ⊢
        simpa using hP
      · rw [List.map_cons, List.getLastD_cons]
        exact hPa

/-- C2 (amended): for every process described by several consecutive input
lines sharing the same pid, the process record pushed into the arrival
queue carries the `arrival_time` of the LAST of those lines (each line
overwrites the field); the earlier lines' arrival values have no effect on
the process's arrival key. -/
theorem load_arrival_key_is_last_line (l₀ : InputLine) (lines : List InputLine)
    (hsame : ∀ l ∈ lines, l.pid = l₀.pid) :
    ∃ P : Process,
      load_process_descriptions (l₀ :: lines) = [(P.arrival_time, P)] ∧
      P.pid = l₀.pid ∧
      P.arrival_time = (lines.map InputLine.arrival).getLastD l₀.arrival := by
  obtain ⟨P, hP, hPpid, hPa⟩ :=
    load_aux_same_pid lines
      { init_process with
          pid := l₀.pid, arrival_time := l₀.arrival,
          behaviours := [⟨toU32 l₀.cpu_time, toU32 l₀.io_time, toU32 l₀.repeats⟩] }
      [] (fun l hl => hsame l hl)
  exact ⟨P, by simpa [load_process_descriptions, load_aux, add_to_queue,
    init_process, null_process] using hP, hPpid, hPa⟩

/-- C2 (witness for the amended claim), at the concrete two-line input
`c2_input`. -/
theorem load_arrival_key_is_last_line_witness :
    ∃ P : Process,
      load_process_descriptions ((⟨5, 1, 2, 2, 1⟩ : InputLine) :: [⟨99, 1, 3, 3, 1⟩]) =
        [(P.arrival_time, P)] ∧
      P.pid = (⟨5, 1, 2, 2, 1⟩ : InputLine).pid ∧
      P.arrival_time =
        (([⟨99, 1, 3, 3, 1⟩] : List InputLine).map InputLine.arrival).getLastD
          (⟨5, 1, 2, 2, 1⟩ : InputLine).arrival :=
  load_arrival_key_is_last_line ⟨5, 1, 2, 2, 1⟩ [⟨99, 1, 3, 3, 1⟩] (by decide)

/-! ## C3 — when the RUN line is logged -/

/-- C3 (counterexample): `schedule_processes` emits a RUN line for the
eligible head even though its `quanta` counter is 3 (mid-slice), because
the head's pid differs from the `running` process's pid: the C condition
is `quanta == 0 || pid != running.pid`, not `quanta == 0` alone. -/
theorem run_log_mid_quantum_cex :
    (schedule_processes c3_state).2 = [Event.run 1 1 7 4] ∧
      c3_proc.quanta = 3 ∧ (3 : Nat) ≠ 0 := by
  decide

/-- C3 (amended): for a head of `ready` that is immediately eligible for
the CPU (its burst is not complete and it is not on the advance-behaviour
path), `schedule_processes` emits the RUN line exactly when the head's
`quanta` counter is 0 OR the head's pid differs from the pid of the
`running` process (the process granted CPU by the previous scheduling
pass); otherwise it emits nothing and just marks the head running. -/
theorem run_log_condition (s : State) (p : Nat) (proc : Process)
    (rest : Queue Process) (h : s.ready = (p, proc) :: rest)
    (hnotadv : ¬ (1 < proc.behaviours.length ∧
      (proc.behaviours.headD default).repeats ≤ proc.progress))
    (helig : proc.units < (proc.behaviours.headD default).cpu_time) :
    schedule_processes s =
      ({ s with running := proc },
       if proc.quanta = 0 ∨ proc.pid ≠ s.running.pid then
         [Event.run proc.pid (p + 1) s.clock
           ((proc.behaviours.headD default).cpu_time - proc.units)]
       else []) := by
  have hterm : ¬ (proc.behaviours.length = 1 ∧
      proc.progress = (proc.behaviours.headD default).repeats ∧
      (proc.behaviours.headD default).cpu_time ≤ proc.units) := by
    rintro ⟨-, -, hc⟩; omega
  have hio : ¬ ((proc.behaviours.headD default).cpu_time ≤ proc.units) := by omega
  simp only [List.headD_eq_head?] at hterm hnotadv hio
  simp only [schedule_processes, schedule_aux, h, List.headD_eq_head?]
  simp [hterm, hnotadv, hio]

/-- C3 (witness for the amended claim), at the concrete state `c3_state`. -/
theorem run_log_condition_witness :
    schedule_processes c3_state =
      ({ c3_state with running := c3_proc },
       if c3_proc.quanta = 0 ∨ c3_proc.pid ≠ c3_state.running.pid then
         [Event.run c3_proc.pid (0 + 1) c3_state.clock
           ((c3_proc.behaviours.headD default).cpu_time - c3_proc.units)]
       else []) :=
  run_log_condition c3_state 0 c3_proc [] rfl (by decide) (by decide)

/-! ## C4 — halt and the bottom-level demotion counter -/

/-- C4 (counterexample): halting the bottom-level process `c4_proc` whose
demotion counter has reached `DEMOTION_THRESHOLD[2] = 'X' = 88` DOES reset
the counter to 0 (while leaving the level at 2): the threshold check
applies at level 2 too, so the counter is bounded there rather than
disregarded. -/
theorem bottom_level_demotion_reset_cex :
    (halt_process c4_state).1.ready.map (fun pr => (pr.1, pr.2.demotion)) = [(2, 0)] ∧
      (halt_process c4_state).2 = Event.queued 3 3 42 ∧
      c4_proc.demotion + 1 = 88 := by
  decide

/-- C4 (amended): in `halt_process` the popped head of `ready` has
`demotion` incremented and `promotion` and `quanta` reset to 0; the
demotion counter is then reset to 0 whenever it has reached
`DEMOTION_THRESHOLD[level]` — at every level, including level 2, whose
threshold is the character code `'X' = 88` — while the one-level demotion
itself additionally requires `level ≠ 2`; the process is pushed back into
`ready` at the resulting level and a QUEUED event at that level (displayed
1-based) at the current clock is emitted. -/
theorem halt_process_spec (s : State) (p : Nat) (proc : Process)
    (rest : Queue Process) (h : s.ready = (p, proc) :: rest) :
    halt_process s =
      ({ s with
          ready := add_to_queue rest
            { proc with
                demotion :=
                  if DEMOTION_THRESHOLD.getD p 0 ≤ proc.demotion + 1 then 0
                  else proc.demotion + 1,
                promotion := 0, quanta := 0 }
            (if DEMOTION_THRESHOLD.getD p 0 ≤ proc.demotion + 1 ∧ p ≠ MIN_PRIORITY
              then p + 1 else p) },
       Event.queued proc.pid
        ((if DEMOTION_THRESHOLD.getD p 0 ≤ proc.demotion + 1 ∧ p ≠ MIN_PRIORITY
           then p + 1 else p) + 1) s.clock) := by
  by_cases hd : DEMOTION_THRESHOLD.getD p 0 ≤ proc.demotion + 1 <;>
    rw [List.getD_eq_getElem?_getD] at hd
  · by_cases hp : p = MIN_PRIORITY
    · subst hp
      simp [halt_process, h, current_priority, remove_from_front, hd]
    · simp [halt_process, h, current_priority, remove_from_front, hd, hp]
  · simp [halt_process, h, current_priority, remove_from_front, hd]

/-- C4 (witness for the amended claim), at the concrete state `c4_state`. -/
theorem halt_process_spec_witness :
    halt_process c4_state =
      ({ c4_state with
          ready := add_to_queue []
            { c4_proc with
                demotion :=
                  if DEMOTION_THRESHOLD.getD 2 0 ≤ c4_proc.demotion + 1 then 0
                  else c4_proc.demotion + 1,
                promotion := 0, quanta := 0 }
            (if DEMOTION_THRESHOLD.getD 2 0 ≤ c4_proc.demotion + 1 ∧
                (2 : Nat) ≠ MIN_PRIORITY then 2 + 1 else 2) },
       Event.queued c4_proc.pid
        ((if DEMOTION_THRESHOLD.getD 2 0 ≤ c4_proc.demotion + 1 ∧
            (2 : Nat) ≠ MIN_PRIORITY then 2 + 1 else 2) + 1) c4_state.clock) :=
  halt_process_spec c4_state 2 c4_proc [] rfl

/-! ## C5 — error handling -/

/-- C5 (counterexample): the program performs no input validation and
never exits nonzero.  On the workload whose only process has the
nonpositive pid `-5`, the simulation proceeds to completion (full trace,
FINISHED line, report) and `main` returns 0; a line with the negative
cpu-time counter `-1` is likewise accepted, the value wrapping to
4294967295 in the `unsigned int` field. -/
theorem invalid_input_accepted_cex :
    mlqfs_main 30 c5_input = some (c5_trace, c5_report, 0) ∧
      (load_process_descriptions [⟨0, 2, -1, 1, 1⟩]).map
        (fun pr => pr.2.behaviours) = [[⟨4294967295, 1, 1⟩]] := by
  decide

/-- C5 (amended): the program does not validate its input: workload lines
with nonpositive pids or negative counters are loaded and simulated rather
than rejected, and whenever the program terminates its exit code is 0. -/
theorem exit_code_always_zero (fuel : Nat) (input : List InputLine)
    (out : List Event × List ReportRow × Nat)
    (h : mlqfs_main fuel input = some out) : out.2.2 = 0 := by
  unfold mlqfs_main at h
  rcases hr : run_loop fuel (init_state (load_process_descriptions input)) with
    - | ⟨s, evs⟩ <;> rw [hr] at h
  · exact absurd h (by simp)
  · simp only [Option.some.injEq] at h
    rw [← h]

/-- C5 (witness for the amended claim). -/
theorem exit_code_always_zero_witness :
    ((c5_trace, c5_report, (0 : Nat)) : List Event × List ReportRow × Nat).2.2 = 0 :=
  exit_code_always_zero 30 c5_input (c5_trace, c5_report, 0) (by decide)

/-! ## C7 — frame property of the run step -/

/-- C7: the run step mutates only `null.total_cpu_usage` (by +1) when
`ready` is empty, and otherwise only the `units` and `total_cpu_usage`
fields of the head of `ready` (each by +1): the head keeps its priority
key and queue position, its other fields (`quanta` included) are
unchanged, and no other process or queue is modified. -/
theorem run_top_process_frame (s : State) :
    run_top_process s =
      match s.ready with
      | [] => { s with null_usage := s.null_usage + 1 }
      | (k, p) :: rest =>
          { s with
              ready := (k,
                { p with
                    units := p.units + 1,
                    total_cpu_usage := p.total_cpu_usage + 1 }) :: rest } := by
  cases h : s.ready with
  | nil => simp [run_top_process, queue_length, h]
  | cons hd tl =>
      cases hd
      simp [run_top_process, queue_length, h, peek_at_current, update_current]

/-! ## C8 — empty input -/

/-- C8: on empty input `load_process_descriptions` still pushes exactly one
record into the arrival queue — pid 0, arrival time 0, empty behaviours
list — so the scheduler is active at the start of the loop and executes at
least one tick (`run_loop` with fuel for a single tick exhausts it with
the scheduler still active rather than terminating before ticking). -/
theorem empty_input_single_record :
    load_process_descriptions ([] : List InputLine) =
      [(0, ⟨0, 0, [], 0, 0, 0, 0, 0, 0, 0⟩)] ∧
      scheduler_is_active (init_state (load_process_descriptions [])) = true ∧
      run_loop 1 (init_state (load_process_descriptions [])) = none := by
  decide

/-! ## C9 — determinism -/

/-- C9: the scheduler is deterministic — the embedded program is a pure
function of the workload (and fuel), so byte-identical workload inputs
produce identical outputs (trace, shutdown line, and report). -/
theorem deterministic_output (fuel : Nat) (i₁ i₂ : List InputLine)
    (h : i₁ = i₂) : mlqfs_main fuel i₁ = mlqfs_main fuel i₂ := by
  rw [h]

/-- C9 (witness), at the concrete S1 workload. -/
theorem deterministic_output_witness :
    mlqfs_main 20 s1_input = mlqfs_main 20 s1_input :=
  deterministic_output 20 s1_input s1_input rfl

/-! ## C6 — the quantum invariant -/

theorem mem_add_to_queue {α : Type} (q : Queue α) (x : α) (p : Nat) :
    ∀ pr ∈ add_to_queue q x p, pr ∈ q ∨ pr = (p, x) := by
  induction q with
  | nil => intro pr hpr; right; simpa [add_to_queue] using hpr
  | cons hd tl ih =>
      intro pr hpr
      obtain ⟨q1, y⟩ := hd
      simp only [add_to_queue] at hpr
      by_cases hp : p < q1
      · rw [if_pos hp] at hpr
        rcases List.mem_cons.mp hpr with h | h
        · right; exact h
        · left; exact h
      · rw [if_neg hp] at hpr
        rcases List.mem_cons.mp hpr with h | h
        · left; exact h ▸ List.mem_cons_self _ _
        · rcases ih pr h with h' | h'
          · left; exact List.mem_cons_of_mem _ h'
          · right; exact h'

theorem add_ready_ok (rest : Queue Process) (proc : Process) (p' : Nat)
    (hl : levels_ok rest) (hq : quanta_ok rest) (hp' : p' ≤ MIN_PRIORITY)
    (hq' : proc.quanta ≤ QUANTUM_THRESHOLD.getD p' 0) :
    levels_ok (add_to_queue rest proc p') ∧
      quanta_ok (add_to_queue rest proc p') := by
  constructor <;> intro pr hpr <;>
    rcases mem_add_to_queue rest proc p' pr hpr with h | h
  · exact hl pr h
  · rw [h]; exact hp'
  · exact hq pr h
  · rw [h]; exact hq'

theorem levels_ok_nil : levels_ok ([] : Queue Process) := by
  intro pr hpr; exact absurd hpr (List.not_mem_nil pr)

theorem quanta_ok_nil : quanta_ok ([] : Queue Process) := by
  intro pr hpr; exact absurd hpr (List.not_mem_nil pr)

theorem halt_process_inv (s : State) (hl : levels_ok s.ready)
    (hq : quanta_ok s.ready.tail) (hio : io_ok s.io_q)
    (harr : arr_ok s.arrival) : SchedInv (halt_process s).1 := by
  refine ⟨?_, ?_, hio, harr⟩ <;>
  · cases hr : s.ready with
    | nil =>
        have key0 : ∀ (proc' : Process) (p' : Nat), proc'.quanta = 0 →
            p' ≤ MIN_PRIORITY →
            levels_ok (add_to_queue ([] : Queue Process) proc' p') ∧
              quanta_ok (add_to_queue ([] : Queue Process) proc' p') :=
          fun proc' p' h0 hple => add_ready_ok [] proc' p' levels_ok_nil
            quanta_ok_nil hple (by rw [h0]; exact Nat.zero_le _)
        have hd2 : DEMOTION_THRESHOLD.getD 0 0 ≤ (default : Process).demotion + 1 := by
          decide
        simp only [halt_process, hr, remove_from_front, current_priority]
        rw [if_pos hd2]
        first
        | exact (key0 _ _ rfl (by decide)).1
        | exact (key0 _ _ rfl (by decide)).2
    | cons hd rest =>
        obtain ⟨p, proc⟩ := hd
        have hp : p ≤ MIN_PRIORITY := hl (p, proc) (hr ▸ List.mem_cons_self _ _)
        have hrest_l : levels_ok rest := fun pr hpr =>
          hl pr (hr ▸ List.mem_cons_of_mem _ hpr)
        have hrest_q : quanta_ok rest := by
          intro pr hpr; exact hq pr (by rw [hr]; exact hpr)
        have key : ∀ (proc' : Process) (p' : Nat), proc'.quanta = 0 →
            p' ≤ MIN_PRIORITY →
            levels_ok (add_to_queue rest proc' p') ∧
              quanta_ok (add_to_queue rest proc' p') :=
          fun proc' p' h0 hple => add_ready_ok rest proc' p' hrest_l hrest_q hple
            (by rw [h0]; exact Nat.zero_le _)
        have hb : (if p ≠ MIN_PRIORITY then p + 1 else p) ≤ MIN_PRIORITY := by
          by_cases hpm : p = MIN_PRIORITY
          · simp [hpm]
          · rw [if_pos hpm]
            simp only [MIN_PRIORITY] at hp hpm ⊢
            omega
        by_cases hd2 : DEMOTION_THRESHOLD.getD p 0 ≤ proc.demotion + 1
        · simp only [halt_process, hr, remove_from_front, current_priority]
          rw [if_pos hd2]
          first
          | exact (key _ _ rfl hb).1
          | exact (key _ _ rfl hb).2
        · simp only [halt_process, hr, remove_from_front, current_priority]
          rw [if_neg hd2]
          first
          | exact (key _ _ rfl hp).1
          | exact (key _ _ rfl hp).2

theorem terminate_process_inv (s : State) (hl : levels_ok s.ready)
    (hq : quanta_ok s.ready) (hio : io_ok s.io_q)
    (harr : arr_ok s.arrival) : SchedInv (terminate_process s).1 := by
  refine ⟨?_, ?_, hio, harr⟩ <;>
  · cases hr : s.ready with
    | nil =>
        intro pr hpr
        simp only [terminate_process, hr, remove_from_front] at hpr
        exact absurd hpr (List.not_mem_nil pr)
    | cons hd rest =>
        intro pr hpr
        simp only [terminate_process, hr, remove_from_front] at hpr
        first
        | exact hl pr (hr ▸ List.mem_cons_of_mem _ hpr)
        | exact hq pr (hr ▸ List.mem_cons_of_mem _ hpr)

theorem send_process_to_io_inv (s : State) (hl : levels_ok s.ready)
    (hq : quanta_ok s.ready) (hio : io_ok s.io_q)
    (harr : arr_ok s.arrival) : SchedInv (send_process_to_io s).1 := by
  refine ⟨?_, ?_, ?_, harr⟩
  · intro pr hpr
    cases hr : s.ready with
    | nil =>
        simp only [send_process_to_io, hr, remove_from_front] at hpr
        exact absurd hpr (List.not_mem_nil pr)
    | cons hd rest =>
        simp only [send_process_to_io, hr, remove_from_front] at hpr
        exact hl pr (hr ▸ List.mem_cons_of_mem _ hpr)
  · intro pr hpr
    cases hr : s.ready with
    | nil =>
        simp only [send_process_to_io, hr, remove_from_front] at hpr
        exact absurd hpr (List.not_mem_nil pr)
    | cons hd rest =>
        simp only [send_process_to_io, hr, remove_from_front] at hpr
        exact hq pr (hr ▸ List.mem_cons_of_mem _ hpr)
  · intro pr hpr
    cases hr : s.ready with
    | nil =>
        have hpm : ¬ (PROMOTION_THRESHOLD.getD 0 0 ≤ (default : Process).promotion + 1) := by
          decide
        simp only [send_process_to_io, hr, remove_from_front,
          current_priority] at hpr
        rw [if_neg hpm] at hpr
        rcases mem_add_to_queue _ _ _ pr hpr with h | h
        · exact hio pr h
        · rw [h]; exact ⟨Nat.zero_le _, rfl⟩
    | cons hd rest =>
        obtain ⟨p, proc⟩ := hd
        have hp : p ≤ MIN_PRIORITY := hl (p, proc) (hr ▸ List.mem_cons_self _ _)
        have hbp : (if p ≠ MAX_PRIORITY then p - 1 else p) ≤ MIN_PRIORITY := by
          by_cases hp0 : p = MAX_PRIORITY
          · simp [hp0]
            decide
          · rw [if_pos hp0]
            exact le_trans (Nat.sub_le p 1) hp
        simp only [send_process_to_io, hr, remove_from_front,
          current_priority] at hpr
        by_cases hpm : PROMOTION_THRESHOLD.getD p 0 ≤ proc.promotion + 1
        · rw [if_pos hpm] at hpr
          rcases mem_add_to_queue _ _ _ pr hpr with h | h
          · exact hio pr h
          · rw [h]; exact ⟨hbp, rfl⟩
        · rw [if_neg hpm] at hpr
          rcases mem_add_to_queue _ _ _ pr hpr with h | h
          · exact hio pr h
          · rw [h]; exact ⟨hp, rfl⟩

theorem drain_arrivals_ok (arr : Queue Process) :
    ∀ (ready : Queue Process) (clock : Nat), levels_ok ready → quanta_ok ready →
      arr_ok arr →
      (levels_ok (drain_arrivals arr ready clock).2.1 ∧
          quanta_ok (drain_arrivals arr ready clock).2.1) ∧
        arr_ok (drain_arrivals arr ready clock).1 := by
  induction arr with
  | nil =>
      intro ready clock hl hq harr
      exact ⟨⟨hl, hq⟩, fun pr hpr => absurd hpr (List.not_mem_nil pr)⟩
  | cons hd tl ih =>
      intro ready clock hl hq harr
      obtain ⟨k, pcs⟩ := hd
      have h0 : pcs.quanta = 0 := (harr (k, pcs) (List.mem_cons_self _ _))
      by_cases hk : k ≤ clock
      · have hnext := ih (add_to_queue ready pcs MAX_PRIORITY) clock
          (add_ready_ok ready pcs MAX_PRIORITY hl hq (by decide)
            (by rw [h0]; exact Nat.zero_le _)).1
          (add_ready_ok ready pcs MAX_PRIORITY hl hq (by decide)
            (by rw [h0]; exact Nat.zero_le _)).2
          (fun pr hpr => harr pr (List.mem_cons_of_mem _ hpr))
        simpa only [drain_arrivals, if_pos hk] using hnext
      · simp only [drain_arrivals, if_neg hk]
        exact ⟨⟨hl, hq⟩, harr⟩

theorem drain_io_ok (ioq : Queue Process) :
    ∀ (ready : Queue Process) (clock : Nat), levels_ok ready → quanta_ok ready →
      io_ok ioq →
      (levels_ok (drain_io ioq ready clock).2.1 ∧
          quanta_ok (drain_io ioq ready clock).2.1) ∧
        io_ok (drain_io ioq ready clock).1 := by
  induction ioq with
  | nil =>
      intro ready clock hl hq hio
      exact ⟨⟨hl, hq⟩, fun pr hpr => absurd hpr (List.not_mem_nil pr)⟩
  | cons hd tl ih =>
      intro ready clock hl hq hio
      obtain ⟨k, pcs⟩ := hd
      obtain ⟨hpc, h0⟩ := hio (k, pcs) (List.mem_cons_self _ _)
      by_cases hk : k ≤ clock
      · have hnext := ih (add_to_queue ready pcs pcs.priority_cache) clock
          (add_ready_ok ready pcs pcs.priority_cache hl hq hpc
            (by rw [h0]; exact Nat.zero_le _)).1
          (add_ready_ok ready pcs pcs.priority_cache hl hq hpc
            (by rw [h0]; exact Nat.zero_le _)).2
          (fun pr hpr => hio pr (List.mem_cons_of_mem _ hpr))
        simpa only [drain_io, if_pos hk] using hnext
      · simp only [drain_io, if_neg hk]
        exact ⟨⟨hl, hq⟩, hio⟩

theorem queue_new_processes_inv (s : State) (h : SchedInv s) :
    SchedInv (queue_new_processes s).1 := by
  obtain ⟨hl, hq, hio, harr⟩ := h
  obtain ⟨⟨hl1, hq1⟩, harr'⟩ :=
    drain_arrivals_ok s.arrival s.ready s.clock hl hq harr
  obtain ⟨⟨hl2, hq2⟩, hio'⟩ :=
    drain_io_ok s.io_q (drain_arrivals s.arrival s.ready s.clock).2.1 s.clock
      hl1 hq1 hio
  exact ⟨hl2, hq2, hio', harr'⟩

theorem check_top_process_quanta_inv (s : State) (h : SchedInv s) :
    SchedInv (check_top_process_quanta s).1 := by
  obtain ⟨hl, hq, hio, harr⟩ := h
  cases hr : s.ready with
  | nil =>
      simp only [check_top_process_quanta, queue_length, hr, List.length_nil,
        if_pos rfl]
      exact ⟨hl, hq, hio, harr⟩
  | cons hd rest =>
      obtain ⟨p, proc⟩ := hd
      have hlen : ¬ (queue_length s.ready = 0) := by
        rw [hr]; simp [queue_length]
      have hl' : levels_ok ((p, { proc with quanta := proc.quanta + 1 }) :: rest) := by
        intro pr hpr
        rcases List.mem_cons.mp hpr with h' | h'
        · rw [h']
          exact hl (p, proc) (hr ▸ List.mem_cons_self _ _)
        · exact hl pr (hr ▸ List.mem_cons_of_mem _ h')
      by_cases hth : QUANTUM_THRESHOLD.getD p 0 ≤ proc.quanta + 1
      · simp only [check_top_process_quanta, if_neg hlen, hr, peek_at_current,
          update_current, List.headD_cons, current_priority]
        rw [if_pos hth]
        exact halt_process_inv
          { s with ready := (p, { proc with quanta := proc.quanta + 1 }) :: rest }
          hl' (fun pr hpr => hq pr (hr ▸ List.mem_cons_of_mem _ hpr)) hio harr
      · simp only [check_top_process_quanta, if_neg hlen, hr, peek_at_current,
          update_current, List.headD_cons, current_priority]
        rw [if_neg hth]
        refine ⟨hl', ?_, hio, harr⟩
        intro pr hpr
        rcases List.mem_cons.mp hpr with h' | h'
        · rw [h']
          show proc.quanta + 1 ≤ QUANTUM_THRESHOLD.getD p 0
          omega
        · exact hq pr (hr ▸ List.mem_cons_of_mem _ h')

theorem schedule_aux_inv (fuel : Nat) :
    ∀ (s : State), SchedInv s → SchedInv (schedule_aux fuel s).1 := by
  induction fuel with
  | zero => intro s h; exact h
  | succ n ih =>
      intro s h
      obtain ⟨hl, hq, hio, harr⟩ := h
      cases hr : s.ready with
      | nil =>
          simp only [schedule_aux, hr]
          exact ⟨hr ▸ hl, hr ▸ hq, hio, harr⟩
      | cons hd rest =>
          obtain ⟨p, proc⟩ := hd
          simp only [schedule_aux, hr]
          by_cases h1 : proc.behaviours.length = 1 ∧
              proc.progress = (proc.behaviours.headD default).repeats ∧
              (proc.behaviours.headD default).cpu_time ≤ proc.units
          · rw [if_pos h1]
            exact ih (terminate_process s).1
              (terminate_process_inv s hl hq hio harr)
          · rw [if_neg h1]
            by_cases h2 : 1 < proc.behaviours.length ∧
                (proc.behaviours.headD default).repeats ≤ proc.progress
            · rw [if_pos h2]
              refine ih _ ⟨?_, ?_, hio, harr⟩ <;> intro pr hpr <;>
                simp only [hr, update_current] at hpr <;>
                rcases List.mem_cons.mp hpr with h' | h'
              · rw [h']
                exact hl (p, proc) (hr ▸ List.mem_cons_self _ _)
              · exact hl pr (hr ▸ List.mem_cons_of_mem _ h')
              · rw [h']
                exact hq (p, proc) (hr ▸ List.mem_cons_self _ _)
              · exact hq pr (hr ▸ List.mem_cons_of_mem _ h')
            · rw [if_neg h2]
              by_cases h3 : (proc.behaviours.headD default).cpu_time ≤ proc.units
              · rw [if_pos h3]
                exact ih (send_process_to_io s).1
                  (send_process_to_io_inv s hl hq hio harr)
              · rw [if_neg h3]
                exact ⟨hr ▸ hl, hr ▸ hq, hio, harr⟩

theorem run_top_process_inv (s : State) (h : SchedInv s) :
    SchedInv (run_top_process s) := by
  obtain ⟨hl, hq, hio, harr⟩ := h
  cases hr : s.ready with
  | nil =>
      have hlen : queue_length s.ready = 0 := by rw [hr]; rfl
      simp only [run_top_process, if_pos hlen]
      exact ⟨hl, hq, hio, harr⟩
  | cons hd rest =>
      obtain ⟨p, proc⟩ := hd
      have hlen : ¬ (queue_length s.ready = 0) := by
        rw [hr]; simp [queue_length]
      simp only [run_top_process, if_neg hlen, hr, peek_at_current,
        update_current, List.headD_cons]
      refine ⟨?_, ?_, hio, harr⟩ <;> intro pr hpr <;>
        rcases List.mem_cons.mp hpr with h' | h'
      · rw [h']
        exact hl (p, proc) (hr ▸ List.mem_cons_self _ _)
      · exact hl pr (hr ▸ List.mem_cons_of_mem _ h')
      · rw [h']
        exact hq (p, proc) (hr ▸ List.mem_cons_self _ _)
      · exact hq pr (hr ▸ List.mem_cons_of_mem _ h')

theorem schedule_processes_inv (s : State) (h : SchedInv s) :
    SchedInv (schedule_processes s).1 :=
  schedule_aux_inv _ s h

theorem tick_inv (s : State) (h : SchedInv s) : SchedInv (tick s).1 := by
  have h4 := run_top_process_inv _
    (schedule_processes_inv _
      (queue_new_processes_inv _ (check_top_process_quanta_inv s h)))
  exact ⟨h4.1, h4.2.1, h4.2.2.1, h4.2.2.2⟩

theorem load_aux_arr_ok (lines : List InputLine) :
    ∀ (fb : Bool) (proc : Process) (acc : Queue Process), proc.quanta = 0 →
      arr_ok acc → arr_ok (load_aux lines fb proc acc) := by
  induction lines with
  | nil =>
      intro fb proc acc hp hacc pr hpr
      rcases mem_add_to_queue _ _ _ pr hpr with h | h
      · exact hacc pr h
      · rw [h]; exact hp
  | cons line rest ih =>
      intro fb proc acc hp hacc
      simp only [load_aux]
      by_cases hc : fb = false ∧ proc.pid ≠ line.pid
      · rw [if_pos hc]
        refine ih false _ _ rfl ?_
        intro pr hpr
        rcases mem_add_to_queue _ _ _ pr hpr with h | h
        · exact hacc pr h
        · rw [h]; exact hp
      · rw [if_neg hc]
        exact ih false _ _ hp hacc

/-- C6: at the end of every iteration of the tick loop, every process in
the ready queue satisfies `quanta ≤ QUANTUM[p]` for its current level `p`,
with `QUANTUM = [10, 30, 100]`: the invariant `SchedInv` holds in the
initial state of every workload and is preserved by `tick` (the quantum
check increments the head's `quanta` and immediately halts it when the
quantum is met, and every level change resets `quanta` to 0), so after any
number of ticks every ready entry's `quanta` is within its level's
quantum. -/
theorem quanta_invariant :
    (∀ input : List InputLine,
      SchedInv (init_state (load_process_descriptions input))) ∧
    (∀ (s : State) (n : Nat), SchedInv s →
      ∀ pr ∈ (tickN n s).ready,
        pr.2.quanta ≤ QUANTUM_THRESHOLD.getD pr.1 0) := by
  constructor
  · intro input
    refine ⟨levels_ok_nil, quanta_ok_nil,
      fun pr hpr => absurd hpr (List.not_mem_nil pr), ?_⟩
    exact load_aux_arr_ok input true init_process [] rfl
      (fun pr hpr => absurd hpr (List.not_mem_nil pr))
  · intro s n
    induction n generalizing s with
    | zero => intro h; exact h.2.1
    | succ n ih => intro h; exact ih (tick s).1 (tick_inv s h)

/-- C6 (witness): the invariant holds in the S1 initial state, and the
concrete ready-queue entry after three ticks respects its level's
quantum. -/
theorem quanta_invariant_witness :
    SchedInv (init_state (load_process_descriptions s1_input)) ∧
      (0, c6_proc) ∈ (tickN 3 (init_state (load_process_descriptions s1_input))).ready ∧
      (0, c6_proc).2.quanta ≤ QUANTUM_THRESHOLD.getD (0, c6_proc).1 0 :=
  ⟨by decide, by decide,
    quanta_invariant.2 (init_state (load_process_descriptions s1_input)) 3
      (by decide) (0, c6_proc) (by decide)⟩

/-! ## C10 — clock and trace monotonicity -/

theorem halt_process_clock (s : State) : (halt_process s).1.clock = s.clock := rfl

theorem halt_process_time (s : State) : (halt_process s).2.time = s.clock := rfl

theorem send_process_to_io_clock (s : State) :
    (send_process_to_io s).1.clock = s.clock := rfl

theorem send_process_to_io_time (s : State) :
    (send_process_to_io s).2.time = s.clock := rfl

theorem terminate_process_clock (s : State) :
    (terminate_process s).1.clock = s.clock := rfl

theorem terminate_process_time (s : State) :
    (terminate_process s).2.time = s.clock := rfl

theorem check_top_process_quanta_clock (s : State) :
    (check_top_process_quanta s).1.clock = s.clock := by
  simp only [check_top_process_quanta]
  split
  · rfl
  · split <;> rfl

theorem check_top_process_quanta_time (s : State) :
    ∀ e ∈ (check_top_process_quanta s).2, e.time = s.clock := by
  intro e he
  simp only [check_top_process_quanta] at he
  split at he
  · exact absurd he (List.not_mem_nil e)
  · split at he
    · rw [List.mem_singleton.mp he]
      rfl
    · exact absurd he (List.not_mem_nil e)

theorem drain_arrivals_time (arr : Queue Process) :
    ∀ (ready : Queue Process) (clock : Nat),
      ∀ e ∈ (drain_arrivals arr ready clock).2.2, e.time = clock := by
  induction arr with
  | nil => intro ready clock e he; exact absurd he (List.not_mem_nil e)
  | cons hd tl ih =>
      intro ready clock e he
      obtain ⟨k, pcs⟩ := hd
      by_cases hk : k ≤ clock
      · simp only [drain_arrivals, if_pos hk] at he
        rcases List.mem_cons.mp he with h | h
        · rw [h]; rfl
        · exact ih _ clock e h
      · simp only [drain_arrivals, if_neg hk] at he
        exact absurd he (List.not_mem_nil e)

theorem drain_io_time (ioq : Queue Process) :
    ∀ (ready : Queue Process) (clock : Nat),
      ∀ e ∈ (drain_io ioq ready clock).2.2, e.time = clock := by
  induction ioq with
  | nil => intro ready clock e he; exact absurd he (List.not_mem_nil e)
  | cons hd tl ih =>
      intro ready clock e he
      obtain ⟨k, pcs⟩ := hd
      by_cases hk : k ≤ clock
      · simp only [drain_io, if_pos hk] at he
        rcases List.mem_cons.mp he with h | h
        · rw [h]; rfl
        · exact ih _ clock e h
      · simp only [drain_io, if_neg hk] at he
        exact absurd he (List.not_mem_nil e)

theorem queue_new_processes_clock (s : State) :
    (queue_new_processes s).1.clock = s.clock := rfl

theorem queue_new_processes_time (s : State) :
    ∀ e ∈ (queue_new_processes s).2, e.time = s.clock := by
  have haux : ∀ (c : Prop) [Decidable c] (a : Int) (b : Nat), ∀ e ∈
      (if c then [Event.queued a b s.clock] else ([] : List Event)),
      e.time = s.clock := by
    intro c _ a b e he
    split at he
    · rw [List.mem_singleton.mp he]
      rfl
    · exact absurd he (List.not_mem_nil e)
  intro e he
  simp only [queue_new_processes, List.mem_append] at he
  rcases he with (h | h) | h
  · exact drain_arrivals_time s.arrival s.ready s.clock e h
  · exact drain_io_time s.io_q _ s.clock e h
  · exact haux _ _ _ e h

theorem schedule_aux_clock (fuel : Nat) :
    ∀ s : State, (schedule_aux fuel s).1.clock = s.clock := by
  induction fuel with
  | zero => intro s; rfl
  | succ n ih =>
      intro s
      cases hr : s.ready with
      | nil => simp only [schedule_aux, hr]
      | cons hd rest =>
          obtain ⟨p, proc⟩ := hd
          simp only [schedule_aux, hr]
          split
          · rw [ih]
            exact terminate_process_clock s
          · split
            · rw [ih]
            · split
              · rw [ih]
                exact send_process_to_io_clock s
              · rfl

theorem schedule_aux_time (fuel : Nat) :
    ∀ (s : State), ∀ e ∈ (schedule_aux fuel s).2, e.time = s.clock := by
  induction fuel with
  | zero => intro s e he; exact absurd he (List.not_mem_nil e)
  | succ n ih =>
      intro s e he
      cases hr : s.ready with
      | nil =>
          simp only [schedule_aux, hr] at he
          exact absurd he (List.not_mem_nil e)
      | cons hd rest =>
          obtain ⟨p, proc⟩ := hd
          simp only [schedule_aux, hr] at he
          revert he
          split
          · intro he
            rcases List.mem_cons.mp he with h | h
            · rw [h]; rfl
            · rw [ih (terminate_process s).1 e h]; rfl
          · split
            · intro he
              rw [ih _ e he]
            · split
              · intro he
                rcases List.mem_cons.mp he with h | h
                · rw [h]; rfl
                · rw [ih (send_process_to_io s).1 e h]; rfl
              · intro he
                revert he
                split
                · intro he
                  rw [List.mem_singleton.mp he]
                  rfl
                · intro he
                  exact absurd he (List.not_mem_nil e)

theorem schedule_processes_clock (s : State) :
    (schedule_processes s).1.clock = s.clock :=
  schedule_aux_clock _ s

theorem run_top_process_clock (s : State) :
    (run_top_process s).clock = s.clock := by
  simp only [run_top_process]
  split <;> rfl

theorem tick_clock (s : State) : (tick s).1.clock = s.clock + 1 := by
  have h : (tick s).1.clock =
      (run_top_process (schedule_processes
        (queue_new_processes (check_top_process_quanta s).1).1).1).clock + 1 := rfl
  rw [h, run_top_process_clock, schedule_processes_clock,
    queue_new_processes_clock, check_top_process_quanta_clock]

theorem tick_time (s : State) : ∀ e ∈ (tick s).2, e.time = s.clock := by
  intro e he
  have h : (tick s).2 =
      (check_top_process_quanta s).2 ++
        ((queue_new_processes (check_top_process_quanta s).1).2 ++
          (schedule_processes
            (queue_new_processes (check_top_process_quanta s).1).1).2) := by
    simp only [tick, List.append_assoc]
  rw [h] at he
  rcases List.mem_append.mp he with h1 | h2
  · exact check_top_process_quanta_time s e h1
  · rcases List.mem_append.mp h2 with h3 | h4
    · rw [queue_new_processes_time _ e h3, check_top_process_quanta_clock]
    · rw [schedule_aux_time _ _ e h4, queue_new_processes_clock,
        check_top_process_quanta_clock]

theorem pairwise_le_of_const (l : List Nat) (c : Nat) (h : ∀ x ∈ l, x = c) :
    l.Pairwise (· ≤ ·) := by
  induction l with
  | nil => exact List.Pairwise.nil
  | cons a t ih =>
      refine List.Pairwise.cons ?_ (ih fun x hx => h x (List.mem_cons_of_mem _ hx))
      intro b hb
      rw [h a (List.mem_cons_self _ _), h b (List.mem_cons_of_mem _ hb)]

theorem run_loop_times (fuel : Nat) :
    ∀ (s sf : State) (evs : List Event), run_loop fuel s = some (sf, evs) →
      s.clock ≤ sf.clock ∧
      (∀ e ∈ evs, s.clock ≤ e.time ∧ e.time < sf.clock) ∧
      (evs.map Event.time).Pairwise (· ≤ ·) := by
  induction fuel with
  | zero =>
      intro s sf evs h
      simp only [run_loop] at h
      split at h
      · exact absurd h (by simp)
      · simp only [Option.some.injEq, Prod.mk.injEq] at h
        obtain ⟨h1, h2⟩ := h
        subst h1
        subst h2
        exact ⟨le_refl _, by simp, by simp⟩
  | succ n ih =>
      intro s sf evs h
      simp only [run_loop] at h
      split at h
      · rcases hr : run_loop n (tick s).1 with - | rs
        · rw [hr] at h
          exact absurd h (by simp)
        · rw [hr] at h
          simp only [Option.some.injEq, Prod.mk.injEq] at h
          obtain ⟨h1, h2⟩ := h
          subst h1
          subst h2
          obtain ⟨hI1, hI2, hI3⟩ := ih (tick s).1 rs.1 rs.2 (by rw [hr])
          have htc : (tick s).1.clock = s.clock + 1 := tick_clock s
          have hte : ∀ e ∈ (tick s).2, e.time = s.clock := tick_time s
          rw [htc] at hI1
          refine ⟨by omega, ?_, ?_⟩
          · intro e he
            rcases List.mem_append.mp he with h' | h'
            · have h1 := hte e h'
              omega
            · have h1 := hI2 e h'
              rw [htc] at h1
              omega
          · rw [List.map_append, List.pairwise_append]
            refine ⟨pairwise_le_of_const _ s.clock ?_, hI3, ?_⟩
            · intro x hx
              rcases List.mem_map.mp hx with ⟨e, he, heq⟩
              rw [← heq]
              exact hte e he
            · intro a ha b hb
              rcases List.mem_map.mp ha with ⟨e, he, heq⟩
              rcases List.mem_map.mp hb with ⟨e', he', heq'⟩
              have h1 := hte e he
              have h2 := (hI2 e' he').1
              rw [htc] at h2
              omega
      · simp only [Option.some.injEq, Prod.mk.injEq] at h
        obtain ⟨h1, h2⟩ := h
        subst h1
        subst h2
        exact ⟨le_refl _, by simp, by simp⟩

/-- C10: the virtual clock advances by exactly 1 per tick-loop iteration,
and in the trace the whole program emits (including the final shutdown
line, whose time is the clock after the post-loop decrement) the
`at time <t>` values are nondecreasing in emission order. -/
theorem clock_monotone :
    (∀ s : State, (tick s).1.clock = s.clock + 1) ∧
    (∀ (fuel : Nat) (input : List InputLine) (tr : List Event)
        (rep : List ReportRow) (code : Nat),
        mlqfs_main fuel input = some (tr, rep, code) →
        (tr.map Event.time).Pairwise (· ≤ ·)) := by
  refine ⟨tick_clock, ?_⟩
  intro fuel input tr rep code h
  unfold mlqfs_main at h
  rcases hr : run_loop fuel (init_state (load_process_descriptions input)) with - | r
  · rw [hr] at h
    exact absurd h (by simp)
  · rw [hr] at h
    simp only [Option.some.injEq, Prod.mk.injEq] at h
    obtain ⟨h1, -, -⟩ := h
    obtain ⟨hc, hb, hp⟩ := run_loop_times fuel _ r.1 r.2 (by rw [hr])
    rw [← h1, List.map_append, List.pairwise_append]
    refine ⟨hp, List.pairwise_singleton _ _, ?_⟩
    intro a ha b hb'
    rcases List.mem_map.mp ha with ⟨e, he, heq⟩
    rcases List.mem_map.mp hb' with ⟨e', he', heq'⟩
    rw [List.mem_singleton.mp he'] at heq'
    have h2 := (hb e he).2
    have hshut : (shutdown_scheduler { r.1 with clock := r.1.clock - 1 }).2.time =
        r.1.clock - 1 := rfl
    rw [hshut] at heq'
    omega

/-- C10 (witness): the S1 trace has nondecreasing emitted times. -/
theorem clock_monotone_witness :
    (s1_trace.map Event.time).Pairwise (· ≤ ·) :=
  clock_monotone.2 20 s1_input s1_trace s1_report 0 (by decide)

end Mlqfs
